import Mathlib

/-!
Shallow embedding of the lookup-cache-and-resolution subsystem of the
ec2bot webhook (src/main.go).  Pure data and operations are translated
directly from the Go source; stateful operations take the process-global
caches as explicit arguments and return the updated cache.  Time is a
natural-number clock (`now`), the configured TTL is `interval`, matching
`time.Time`/`time.Duration` arithmetic at the granularity the code uses:
`cache.UpdatedAt.Add(interval).Before(time.Now())` becomes
`cache.UpdatedAt + interval < now`.  Remote AWS calls are modelled by an
`Except`-valued oracle argument holding the outcome the remote call would
produce at this moment (one orchestration call sees one listing).  Go
pointer-valued fields that the code nil-checks are `Option`; pointer
fields the code dereferences unconditionally are read with `.getD ""`
(the dereference cannot fault for data the AWS API returns, since the
relevant field is always populated there).  Regular-expression matchers
(`regexp.FindAllString pattern s -1`) are abstracted as functions
`String → List String` giving each string's match list in order.
-/

namespace EC2Bot

/-- The fields of `ec2.Instance` the core reads (Go pointers as `Option`). -/
structure Instance where
  PrivateDnsName : Option String
  InstanceId : Option String
deriving Repr, DecidableEq

/-- One `ec2.Reservation`: the instance list the scan iterates. -/
structure Reservation where
  Instances : List Instance
deriving Repr, DecidableEq

/-- `InstanceCache` from src/main.go: fetch timestamp plus the last
`DescribeInstancesOutput` (its reservation list); `none` = never populated
(the Go field is a nil pointer and `UpdatedAt` the zero time, here 0). -/
structure InstanceCache where
  UpdatedAt : Nat
  Instances : Option (List Reservation)
deriving Repr, DecidableEq

/-- An `elb.Tag` key/value pair. -/
structure Tag where
  Key : String
  Value : String
deriving Repr, DecidableEq

/-- The fields of `elb.LoadBalancerDescription` the core reads. -/
structure LoadBalancerDescription where
  LoadBalancerName : Option String
  DNSName : Option String
deriving Repr, DecidableEq

/-- One `elb.TagDescription` of a `DescribeTags` response.  The Go
`LoadBalancerName` is a `*string` the code dereferences unconditionally;
it is always populated in a real response, so it is a plain `String`. -/
structure TagDescription where
  LoadBalancerName : String
  Tags : List Tag
deriving Repr, DecidableEq

/-- `LoadBalancerCache` from src/main.go: timestamp, last
`DescribeLoadBalancersOutput` (its description list) and the tag map,
modelled as an association list (the Go map, with a canonical order). -/
structure LoadBalancerCache where
  UpdatedAt : Nat
  LoadBalancers : Option (List LoadBalancerDescription)
  Tags : List (String × List Tag)
deriving Repr, DecidableEq

/-- Go map read `m[k]`: the value at `k`, if present. -/
def mapLookup {α : Type} : List (String × α) → String → Option α
  | [], _ => none
  | p :: rest, k => if p.1 == k then some p.2 else mapLookup rest k

/-- Go map write `m[k] = v`: overwrite the binding at `k`, or append one.
Every map in the model starts empty and is only written through this, so
its keys stay pairwise distinct, as a Go map's are. -/
def mapInsert {α : Type} : List (String × α) → String → α → List (String × α)
  | [], k, v => [(k, v)]
  | p :: rest, k, v => if p.1 == k then (k, v) :: rest else p :: mapInsert rest k v

/-- The keys of a modelled map. -/
def mapKeys {α : Type} (m : List (String × α)) : List String :=
  m.map Prod.fst

/-- The per-instance test of `getInstance`'s scan loop:
`instance.PrivateDnsName != nil && *instance.PrivateDnsName == query`,
then likewise for `InstanceId`. -/
def matchInstance (query : String) (i : Instance) : Bool :=
  i.PrivateDnsName == some query || i.InstanceId == some query

/-- The nested loop of `getInstance`: over every reservation's instances,
first match wins (the source returns from inside the loop). -/
def scanInstances (resvs : List Reservation) (query : String) : Option Instance :=
  (resvs.flatMap Reservation.Instances).find? (matchInstance query)

/-- Go's `strings.HasSuffix s suffix`, over the characters of the strings
(byte suffix and character suffix agree on valid UTF-8). -/
def hasSuffix (s suffix : String) : Bool :=
  suffix.data.isSuffixOf s.data

/-- The per-balancer test of `getLoadBalancer`'s scan loop:
`lb.DNSName != nil && strings.HasSuffix(*lb.DNSName, query)`. -/
def matchLoadBalancer (query : String) (lb : LoadBalancerDescription) : Bool :=
  match lb.DNSName with
  | some d => hasSuffix d query
  | none => false

/-- The loop of `getLoadBalancer`: first suffix match wins. -/
def scanLoadBalancers (lbs : List LoadBalancerDescription) (query : String) :
    Option LoadBalancerDescription :=
  lbs.find? (matchLoadBalancer query)

/-- What one `getInstance` call produces: its return value, the instance
cache it leaves behind, and whether it performed a remote listing fetch. -/
structure GetInstanceOut where
  result : Except String (Option Instance)
  cache : InstanceCache
  fetched : Bool

/-- `getInstance` from src/main.go lines 147-179.  `describeInstances`
is the outcome the remote `DescribeInstances` call would produce.  When
the cache is within its TTL the snapshot is scanned as-is (a fresh but
never-populated cache would nil-fault in Go; that needs `now ≤ interval`,
impossible for a wall clock, and is modelled as scanning no data). -/
def getInstance (query : String) (interval now : Nat)
    (describeInstances : Except String (List Reservation))
    (cache : InstanceCache) : GetInstanceOut :=
  if cache.UpdatedAt + interval < now then
    match describeInstances with
    | .error e => ⟨.error e, cache, true⟩
    | .ok resp => ⟨.ok (scanInstances resp query), ⟨now, some resp⟩, true⟩
  else
    ⟨.ok (scanInstances (cache.Instances.getD []) query), cache, false⟩

/-- What one `getLoadBalancer` call produces. -/
structure GetLoadBalancerOut where
  result : Except String (Option LoadBalancerDescription)
  cache : LoadBalancerCache
  fetched : Bool

/-- `getLoadBalancer` from src/main.go lines 181-209.  Note that a
successful refresh rebuilds the whole `LoadBalancerCache`, including
`Tags: make(map[string][]*elb.Tag)` — an empty tag map. -/
def getLoadBalancer (query : String) (interval now : Nat)
    (describeLoadBalancers : Except String (List LoadBalancerDescription))
    (cache : LoadBalancerCache) : GetLoadBalancerOut :=
  if cache.UpdatedAt + interval < now then
    match describeLoadBalancers with
    | .error e => ⟨.error e, cache, true⟩
    | .ok resp => ⟨.ok (scanLoadBalancers resp query), ⟨now, some resp, []⟩, true⟩
  else
    ⟨.ok (scanLoadBalancers (cache.LoadBalancers.getD []) query), cache, false⟩

/-- What one `getLoadBalancerTags` call produces. -/
structure GetTagsOut where
  result : Except String (List Tag)
  cache : LoadBalancerCache
  fetched : Bool

/-- The body of `getLoadBalancerTags`' response loop: the description is
written into the tag map, and when its name equals the request the local
`tags` variable (the second component) is reassigned to its tags. -/
def tagsStep (name : String) (acc : List (String × List Tag) × List Tag)
    (d : TagDescription) : List (String × List Tag) × List Tag :=
  (mapInsert acc.1 d.LoadBalancerName d.Tags,
   if d.LoadBalancerName == name then d.Tags else acc.2)

/-- `getLoadBalancerTags` from src/main.go lines 211-231: a tag-map hit
returns the cached tags with no remote call; on a miss it issues
`DescribeTags` for the one name and folds `tagsStep` over the response's
descriptions, returning the accumulated `tags` (the empty slice when no
response entry carries the requested name). -/
def getLoadBalancerTags (name : String)
    (describeTags : Except String (List TagDescription))
    (cache : LoadBalancerCache) : GetTagsOut :=
  match mapLookup cache.Tags name with
  | some t => ⟨.ok t, cache, false⟩
  | none =>
    match describeTags with
    | .error e => ⟨.error e, cache, true⟩
    | .ok resp =>
      let final := resp.foldl (tagsStep name) (cache.Tags, [])
      ⟨.ok final.2, { cache with Tags := final.1 }, true⟩

/-- One `slack.AttachmentField` (only `Value` is scanned). -/
structure AttachmentField where
  Title : String
  Value : String
deriving Repr, DecidableEq

/-- One `slack.Attachment` (the fields `findQuery` scans). -/
structure Attachment where
  Text : String
  Title : String
  Fields : List AttachmentField
deriving Repr, DecidableEq

/-- The inbound event's message: body text plus attachments
(`ev.Event.Text`, `ev.Event.Attachments`). -/
structure Event where
  Text : String
  Attachments : List Attachment
deriving Repr, DecidableEq

/-- The strings `findQuery` scans, in the order its loops visit them:
the body, then per attachment its text, its title, its fields' values. -/
def corpusStrings (ev : Event) : List String :=
  ev.Text :: ev.Attachments.flatMap
    (fun a => a.Text :: a.Title :: a.Fields.map AttachmentField.Value)

/-- Go `queries[s] = struct{}{}`: record a query once.  The Go map holds
each key once and is iterated in unspecified order; the model fixes
first-insertion order as the canonical order of `findQuery`'s output. -/
def insertQuery (acc : List String) (s : String) : List String :=
  if s ∈ acc then acc else acc ++ [s]

/-- `findQuery` from src/main.go lines 233-256: all matches of one
pattern over the corpus, deduplicated.  `m` stands for
`pattern.FindAllString · -1`. -/
def findQuery (ev : Event) (m : String → List String) : List String :=
  ((corpusStrings ev).flatMap m).foldl insertQuery []

/-- `findInstanceQueries`: host-ID pattern matches, then
private-DNS-name pattern matches (`append(a, b...)`). -/
def findInstanceQueries (ev : Event) (mHostID mPrivateDns : String → List String) :
    List String :=
  findQuery ev mHostID ++ findQuery ev mPrivateDns

/-- `findLoadBalancerQueries`: ELB DNS-name pattern matches. -/
def findLoadBalancerQueries (ev : Event) (mELB : String → List String) :
    List String :=
  findQuery ev mELB

/-- The state of `findInstances`' loop when it stops: the error that
aborted it (if any), the resolved map, the not-found list, the cache it
leaves behind, and how many remote listing fetches happened. -/
structure InstancesLoopOut where
  err : Option String
  found : List (String × Instance)
  notFound : List String
  cache : InstanceCache
  fetches : Nat

/-- The query loop of `findInstances` (src/main.go lines 276-286):
`instances[*instance.InstanceId] = instance` on a hit, `notFound`
append on a miss, immediate `return nil, err` on a fetch failure. -/
def findInstancesLoop (interval now : Nat)
    (describeInstances : Except String (List Reservation)) :
    List String → InstanceCache → List (String × Instance) → List String → Nat →
    InstancesLoopOut
  | [], cache, found, nf, k => ⟨none, found, nf, cache, k⟩
  | q :: rest, cache, found, nf, k =>
    let out := getInstance q interval now describeInstances cache
    let k' := k + (if out.fetched then 1 else 0)
    match out.result with
    | .error e => ⟨some e, found, nf, out.cache, k'⟩
    | .ok none =>
      findInstancesLoop interval now describeInstances rest out.cache
        found (nf ++ [q]) k'
    | .ok (some i) =>
      findInstancesLoop interval now describeInstances rest out.cache
        (mapInsert found (i.InstanceId.getD "") i) nf k'

/-- What `findInstances` produces: the returned slice (or the error), the
cache left behind, how many fetches happened, and the argument of the
deferred `postNoInstance` call, `none` when no such call is registered. -/
structure FindInstancesOut where
  result : Except String (List Instance)
  cache : InstanceCache
  fetches : Nat
  notFoundPost : Option (List String)

/-- `findInstances` from src/main.go lines 269-295.  Zero queries return
at once; an error returns `nil, err` before the `defer` is registered;
otherwise the map's values are returned (in the model's insertion order;
Go map iteration order is unspecified) and `postNoInstance(notFound)` is
deferred exactly when `notFound` is non-empty. -/
def findInstances (ev : Event) (mHostID mPrivateDns : String → List String)
    (interval now : Nat) (describeInstances : Except String (List Reservation))
    (cache : InstanceCache) : FindInstancesOut :=
  let queries := findInstanceQueries ev mHostID mPrivateDns
  if queries.isEmpty then ⟨.ok [], cache, 0, none⟩
  else
    let lo := findInstancesLoop interval now describeInstances queries cache [] [] 0
    match lo.err with
    | some e => ⟨.error e, lo.cache, lo.fetches, none⟩
    | none =>
      ⟨.ok (lo.found.map Prod.snd), lo.cache, lo.fetches,
        if lo.notFound.isEmpty then none else some lo.notFound⟩

/-- The state of `findLoadBalancers`' loop when it stops. -/
structure LoadBalancersLoopOut where
  err : Option String
  found : List (String × LoadBalancerDescription)
  notFound : List String
  cache : LoadBalancerCache
  fetches : Nat

/-- The query loop of `findLoadBalancers` (src/main.go lines 304-314):
`lbs[*lb.DNSName] = lb` on a hit. -/
def findLoadBalancersLoop (interval now : Nat)
    (describeLoadBalancers : Except String (List LoadBalancerDescription)) :
    List String → LoadBalancerCache → List (String × LoadBalancerDescription) →
    List String → Nat → LoadBalancersLoopOut
  | [], cache, found, nf, k => ⟨none, found, nf, cache, k⟩
  | q :: rest, cache, found, nf, k =>
    let out := getLoadBalancer q interval now describeLoadBalancers cache
    let k' := k + (if out.fetched then 1 else 0)
    match out.result with
    | .error e => ⟨some e, found, nf, out.cache, k'⟩
    | .ok none =>
      findLoadBalancersLoop interval now describeLoadBalancers rest out.cache
        found (nf ++ [q]) k'
    | .ok (some lb) =>
      findLoadBalancersLoop interval now describeLoadBalancers rest out.cache
        (mapInsert found (lb.DNSName.getD "") lb) nf k'

/-- What `findLoadBalancers` produces. -/
structure FindLoadBalancersOut where
  result : Except String (List LoadBalancerDescription)
  cache : LoadBalancerCache
  fetches : Nat
  notFoundPost : Option (List String)

/-- `findLoadBalancers` from src/main.go lines 297-323. -/
def findLoadBalancers (ev : Event) (mELB : String → List String)
    (interval now : Nat)
    (describeLoadBalancers : Except String (List LoadBalancerDescription))
    (cache : LoadBalancerCache) : FindLoadBalancersOut :=
  let queries := findLoadBalancerQueries ev mELB
  if queries.isEmpty then ⟨.ok [], cache, 0, none⟩
  else
    let lo := findLoadBalancersLoop interval now describeLoadBalancers
      queries cache [] [] 0
    match lo.err with
    | some e => ⟨.error e, lo.cache, lo.fetches, none⟩
    | none =>
      ⟨.ok (lo.found.map Prod.snd), lo.cache, lo.fetches,
        if lo.notFound.isEmpty then none else some lo.notFound⟩

/-- How the POST handler's resolution phase ends. -/
inductive HandlerOutcome where
  | fail (e : String)
  | postInstances (l : List Instance)
  | postLoadBalancers (l : List LoadBalancerDescription)
  | queryNotFound
deriving Repr

/-- What the handler leaves behind: its outcome, whether load-balancer
resolution was invoked, and both caches. -/
structure HandleOut where
  outcome : HandlerOutcome
  lbAttempted : Bool
  instanceCache : InstanceCache
  loadBalancerCache : LoadBalancerCache

/-- The resolution phase of the POST handler (src/main.go lines 105-129):
`findInstances` first; on error return it; if any instance resolved, post
them and return without touching load balancers; otherwise
`findLoadBalancers`, with the analogous three endings. -/
def handleEvent (ev : Event) (mHostID mPrivateDns mELB : String → List String)
    (interval now : Nat)
    (describeInstances : Except String (List Reservation))
    (describeLoadBalancers : Except String (List LoadBalancerDescription))
    (cacheI : InstanceCache) (cacheL : LoadBalancerCache) : HandleOut :=
  let fi := findInstances ev mHostID mPrivateDns interval now describeInstances cacheI
  match fi.result with
  | .error e => ⟨.fail e, false, fi.cache, cacheL⟩
  | .ok instances =>
    if instances.length > 0 then ⟨.postInstances instances, false, fi.cache, cacheL⟩
    else
      let fl := findLoadBalancers ev mELB interval now describeLoadBalancers cacheL
      match fl.result with
      | .error e => ⟨.fail e, true, fi.cache, fl.cache⟩
      | .ok lbs =>
        if lbs.length > 0 then ⟨.postLoadBalancers lbs, true, fi.cache, fl.cache⟩
        else ⟨.queryNotFound, true, fi.cache, fl.cache⟩

/-- The spec's staleness predicate, taken from its words: Stale means
age ≥ TTL, or never populated (claim C1's wording). -/
def specStaleInstance (cache : InstanceCache) (interval now : Nat) : Bool :=
  decide (interval ≤ now - cache.UpdatedAt) || cache.Instances.isNone

/-- From claim C9's words: the deduplicated queries in the order they
first appear when the corpus is scanned string by string; `scan` stands
for scanning one string for identifier-shaped substrings of every
relevant pattern, in positional order. -/
def corpusFirstSeenQueries (ev : Event) (scan : String → List String) : List String :=
  ((corpusStrings ev).flatMap scan).foldl insertQuery []

/-- The snapshot a `getInstance` call will scan: the remote listing when
the cache is due for a refresh (nothing on a failing fetch), the cached
one otherwise. -/
def effectiveInstances (interval now : Nat)
    (describeInstances : Except String (List Reservation))
    (cache : InstanceCache) : Option (List Reservation) :=
  if cache.UpdatedAt + interval < now then
    match describeInstances with
    | .ok resp => some resp
    | .error _ => none
  else some (cache.Instances.getD [])

/-- The snapshot a `getLoadBalancer` call will scan. -/
def effectiveLoadBalancers (interval now : Nat)
    (describeLoadBalancers : Except String (List LoadBalancerDescription))
    (cache : LoadBalancerCache) : Option (List LoadBalancerDescription) :=
  if cache.UpdatedAt + interval < now then
    match describeLoadBalancers with
    | .ok resp => some resp
    | .error _ => none
  else some (cache.LoadBalancers.getD [])

/-- The resolved map both query loops build: walk the queries, inserting
each hit under its canonical key. -/
def keyedFold {α : Type} (scan : String → Option α) (key : α → String) :
    List String → List (String × α) → List (String × α)
  | [], found => found
  | q :: rest, found =>
    match scan q with
    | some x => keyedFold scan key rest (mapInsert found (key x) x)
    | none => keyedFold scan key rest found

/-- `find?` returns `some a` exactly when the list splits at `a` with no
match before it: first match wins. -/
theorem find?_eq_some_split {α : Type} {p : α → Bool} {l : List α} {a : α} :
    l.find? p = some a ↔
      ∃ l1 l2, l = l1 ++ a :: l2 ∧ (∀ x ∈ l1, p x = false) ∧ p a = true := by
  induction l with
  | nil => simp
  | cons b t ih =>
    by_cases hb : p b = true
    · rw [List.find?_cons_of_pos t hb]
      constructor
      · intro h
        cases h
        exact ⟨[], t, rfl, by simp, hb⟩
      · rintro ⟨l1, l2, heq, hpre, hpa⟩
        cases l1 with
        | nil =>
          simp only [List.nil_append, List.cons.injEq] at heq
          rw [heq.1]
        | cons c l1' =>
          simp only [List.cons_append, List.cons.injEq] at heq
          have := hpre c (by simp)
          rw [← heq.1] at this
          rw [this] at hb
          cases hb
    · rw [List.find?_cons_of_neg t hb]
      rw [ih]
      constructor
      · rintro ⟨l1, l2, heq, hpre, hpa⟩
        refine ⟨b :: l1, l2, by rw [heq]; rfl, ?_, hpa⟩
        intro x hx
        rcases List.mem_cons.mp hx with rfl | hx'
        · simpa using hb
        · exact hpre x hx'
      · rintro ⟨l1, l2, heq, hpre, hpa⟩
        cases l1 with
        | nil =>
          simp only [List.nil_append, List.cons.injEq] at heq
          rw [← heq.1] at hpa
          exact absurd hpa hb
        | cons c l1' =>
          simp only [List.cons_append, List.cons.injEq] at heq
          exact ⟨l1', l2, heq.2, fun x hx => hpre x (by simp [hx]), hpa⟩

/-- Recording a query keeps the list duplicate-free. -/
theorem insertQuery_nodup {acc : List String} {s : String} (h : acc.Nodup) :
    (insertQuery acc s).Nodup := by
  unfold insertQuery
  split
  · exact h
  · next hmem =>
    refine List.nodup_append.mpr ⟨h, List.nodup_singleton s, ?_⟩
    intro x hx hx'
    simp only [List.mem_singleton] at hx'
    subst hx'
    exact hmem hx

/-- Folding `insertQuery` over any match list keeps the accumulated query
list duplicate-free. -/
theorem foldl_insertQuery_nodup (l : List String) :
    ∀ acc : List String, acc.Nodup → (l.foldl insertQuery acc).Nodup := by
  induction l with
  | nil => intro acc h; exact h
  | cons s t ih => intro acc h; exact ih _ (insertQuery_nodup h)

/-- Looking up the key just written yields the written value. -/
theorem mapLookup_mapInsert_self {α : Type} (m : List (String × α)) (k : String)
    (v : α) : mapLookup (mapInsert m k v) k = some v := by
  induction m with
  | nil => simp [mapInsert, mapLookup]
  | cons p rest ih =>
    unfold mapInsert
    split
    · simp [mapLookup]
    · next h => simpa [mapLookup, h] using ih

/-- Writing one key leaves every other key's value unchanged. -/
theorem mapLookup_mapInsert_ne {α : Type} (m : List (String × α)) {k k' : String}
    (v : α) (h : k ≠ k') : mapLookup (mapInsert m k' v) k = mapLookup m k := by
  have hne : (k' == k) = false := by simpa using Ne.symm h
  induction m with
  | nil => simp [mapInsert, mapLookup, hne]
  | cons p rest ih =>
    unfold mapInsert
    split
    · next hp =>
      have hp' : p.1 = k' := by simpa using hp
      simp [mapLookup, hp', hne]
    · next hp => simp [mapLookup, ih]

/-- A write never drops a key. -/
theorem mapKeys_mapInsert_mono {α : Type} (m : List (String × α)) (k' : String)
    (v : α) {k : String} (h : k ∈ mapKeys m) : k ∈ mapKeys (mapInsert m k' v) := by
  induction m with
  | nil => cases h
  | cons p rest ih =>
    unfold mapInsert
    split
    · next hp =>
      have hp' : p.1 = k' := by simpa using hp
      rcases List.mem_cons.mp h with h1 | h2
      · simp [mapKeys, ← hp', h1]
      · simp only [mapKeys, List.map_cons] at h2 ⊢
        exact List.mem_cons_of_mem _ h2
    · rcases List.mem_cons.mp h with h1 | h2
      · simp [mapKeys, h1]
      · simp only [mapKeys, List.map_cons]
        exact List.mem_cons_of_mem _ (ih h2)

/-- The key just written is a key of the map. -/
theorem mapKeys_mapInsert_self {α : Type} (m : List (String × α)) (k : String)
    (v : α) : k ∈ mapKeys (mapInsert m k v) := by
  induction m with
  | nil => simp [mapInsert, mapKeys]
  | cons p rest ih =>
    unfold mapInsert
    split
    · simp [mapKeys]
    · simp only [mapKeys, List.map_cons]
      exact List.mem_cons_of_mem _ ih

/-- Every pair of the written map is an old pair or the written one. -/
theorem mapInsert_pairs {α : Type} (m : List (String × α)) (k : String) (v : α) :
    ∀ q ∈ mapInsert m k v, q ∈ m ∨ q = (k, v) := by
  induction m with
  | nil => intro q hq; simp only [mapInsert, List.mem_singleton] at hq; exact Or.inr hq
  | cons p rest ih =>
    intro q hq
    unfold mapInsert at hq
    split at hq
    · rcases List.mem_cons.mp hq with h1 | h2
      · exact Or.inr h1
      · exact Or.inl (List.mem_cons_of_mem _ h2)
    · rcases List.mem_cons.mp hq with h1 | h2
      · exact Or.inl (by simp [h1])
      · rcases ih q h2 with h3 | h3
        · exact Or.inl (List.mem_cons_of_mem _ h3)
        · exact Or.inr h3

/-- A write preserves distinctness of the keys. -/
theorem mapKeys_mapInsert_nodup {α : Type} (m : List (String × α)) (k : String)
    (v : α) (h : (mapKeys m).Nodup) : (mapKeys (mapInsert m k v)).Nodup := by
  induction m with
  | nil => simp [mapInsert, mapKeys]
  | cons p rest ih =>
    simp only [mapKeys, List.map_cons, List.nodup_cons] at h
    unfold mapInsert
    split
    · next hp =>
      have hp' : p.1 = k := by simpa using hp
      simp only [mapKeys, List.map_cons, List.nodup_cons]
      exact ⟨hp' ▸ h.1, h.2⟩
    · next hp =>
      have hp' : ¬ p.1 = k := by simpa using hp
      simp only [mapKeys, List.map_cons, List.nodup_cons]
      refine ⟨?_, ih h.2⟩
      intro hmem
      have : p.1 ∈ mapKeys (mapInsert rest k v) := hmem
      have hsrc : p.1 ∈ mapKeys rest ∨ p.1 = k := by
        rcases List.mem_map.mp this with ⟨q, hq, hq1⟩
        rcases mapInsert_pairs rest k v q hq with h3 | h3
        · exact Or.inl (hq1 ▸ List.mem_map_of_mem Prod.fst h3)
        · exact Or.inr (by rw [← hq1, h3])
      rcases hsrc with h4 | h4
      · exact h.1 h4
      · exact hp' h4

/-- Every pair the resolved fold builds is keyed by its value's key. -/
theorem keyedFold_pairs {α : Type} (scan : String → Option α) (key : α → String)
    (queries : List String) :
    ∀ found, (∀ p ∈ found, p.1 = key p.2) →
      ∀ p ∈ keyedFold scan key queries found, p.1 = key p.2 := by
  induction queries with
  | nil => intro found h p hp; exact h p hp
  | cons q rest ih =>
    intro found h p hp
    simp only [keyedFold] at hp
    cases hscan : scan q with
    | none =>
      rw [hscan] at hp
      exact ih found h p hp
    | some x =>
      rw [hscan] at hp
      refine ih _ ?_ p hp
      intro r hr
      rcases mapInsert_pairs found (key x) x r hr with h1 | h1
      · exact h r h1
      · simp [h1]

/-- The resolved fold keeps its keys pairwise distinct. -/
theorem keyedFold_keys_nodup {α : Type} (scan : String → Option α) (key : α → String)
    (queries : List String) :
    ∀ found, (mapKeys found).Nodup →
      (mapKeys (keyedFold scan key queries found)).Nodup := by
  induction queries with
  | nil => intro found h; exact h
  | cons q rest ih =>
    intro found h
    simp only [keyedFold]
    cases hscan : scan q with
    | none => exact ih found h
    | some x => exact ih _ (mapKeys_mapInsert_nodup found (key x) x h)

/-- The resolved fold never drops a key. -/
theorem keyedFold_keys_mono {α : Type} (scan : String → Option α) (key : α → String)
    (queries : List String) :
    ∀ found (k : String), k ∈ mapKeys found →
      k ∈ mapKeys (keyedFold scan key queries found) := by
  induction queries with
  | nil => intro found k h; exact h
  | cons q rest ih =>
    intro found k h
    simp only [keyedFold]
    cases hscan : scan q with
    | none => exact ih found k h
    | some x => exact ih _ k (mapKeys_mapInsert_mono found (key x) x h)

/-- A query that scans to a hit puts the hit's key into the resolved fold. -/
theorem keyedFold_mem_key {α : Type} (scan : String → Option α) (key : α → String)
    (queries : List String) (q : String) (x : α)
    (hq : q ∈ queries) (hscan : scan q = some x) :
    ∀ found, key x ∈ mapKeys (keyedFold scan key queries found) := by
  induction queries with
  | nil => cases hq
  | cons q0 rest ih =>
    intro found
    simp only [keyedFold]
    rcases List.mem_cons.mp hq with rfl | hq'
    · rw [hscan]
      exact keyedFold_keys_mono scan key rest _ _ (mapKeys_mapInsert_self found (key x) x)
    · cases hscan0 : scan q0 with
      | none => exact ih hq' found
      | some y => exact ih hq' _

/-- When no response entry carries the requested name, the `tags` local
variable keeps its incoming value through the loop. -/
theorem tagsFold_snd_absent (name : String) (resp : List TagDescription) :
    ∀ acc, (∀ d ∈ resp, d.LoadBalancerName ≠ name) →
      (resp.foldl (tagsStep name) acc).2 = acc.2 := by
  induction resp with
  | nil => intro acc _; rfl
  | cons d rest ih =>
    intro acc h
    rw [List.foldl_cons]
    rw [ih _ (fun d' hd' => h d' (List.mem_cons_of_mem _ hd'))]
    have hne : (d.LoadBalancerName == name) = false := by
      simpa using h d (List.mem_cons_self d rest)
    simp [tagsStep, hne]

/-- A write keeps every present key present. -/
theorem mapLookup_mapInsert_isSome {α : Type} (m : List (String × α))
    (k k' : String) (v : α) (h : (mapLookup m k).isSome) :
    (mapLookup (mapInsert m k' v) k).isSome := by
  by_cases hk : k = k'
  · subst hk; simp [mapLookup_mapInsert_self]
  · rw [mapLookup_mapInsert_ne m v hk]; exact h

/-- The tag-map fold keeps every present key present. -/
theorem tagsFold_fst_isSome (name : String) (resp : List TagDescription) :
    ∀ acc (k : String), (mapLookup acc.1 k).isSome →
      (mapLookup (resp.foldl (tagsStep name) acc).1 k).isSome := by
  induction resp with
  | nil => intro acc k h; exact h
  | cons d rest ih =>
    intro acc k h
    rw [List.foldl_cons]
    exact ih _ k (mapLookup_mapInsert_isSome _ _ _ _ h)

/-- The tag-map fold leaves a key it never writes unchanged. -/
theorem tagsFold_lookup_preserved (name : String) (resp : List TagDescription) :
    ∀ acc (k : String) (v : List Tag), mapLookup acc.1 k = some v →
      k ∉ resp.map TagDescription.LoadBalancerName →
      mapLookup (resp.foldl (tagsStep name) acc).1 k = some v := by
  induction resp with
  | nil => intro acc k v h _; exact h
  | cons d rest ih =>
    intro acc k v h hk
    rw [List.foldl_cons]
    have hne : k ≠ d.LoadBalancerName := fun he => hk (by simp [he])
    refine ih _ k v ?_ (fun hmem => hk (by simp [hmem]))
    show mapLookup (mapInsert acc.1 d.LoadBalancerName d.Tags) k = some v
    rw [mapLookup_mapInsert_ne _ _ hne]
    exact h

/-- With pairwise-distinct response names, every description ends up in
the tag map under its name. -/
theorem tagsFold_lookup_of_mem (name : String) (resp : List TagDescription) :
    ∀ acc, (resp.map TagDescription.LoadBalancerName).Nodup →
      ∀ d ∈ resp,
        mapLookup (resp.foldl (tagsStep name) acc).1 d.LoadBalancerName =
          some d.Tags := by
  induction resp with
  | nil => intro acc _ d hd; cases hd
  | cons d0 rest ih =>
    intro acc hnodup d hd
    rw [List.map_cons, List.nodup_cons] at hnodup
    rw [List.foldl_cons]
    rcases List.mem_cons.mp hd with rfl | hd'
    · refine tagsFold_lookup_preserved name rest _ _ _ ?_ hnodup.1
      show mapLookup (mapInsert acc.1 d.LoadBalancerName d.Tags) _ = _
      exact mapLookup_mapInsert_self _ _ _
    · exact ih _ hnodup.2 d hd'

/-- When the effective snapshot exists, `getInstance` succeeds with its
scan of that snapshot, and the cache it leaves behind has the same
effective snapshot. -/
theorem getInstance_effective (q : String) (interval now : Nat)
    (d : Except String (List Reservation)) (cache : InstanceCache)
    (r : List Reservation) (h : effectiveInstances interval now d cache = some r) :
    (getInstance q interval now d cache).result = .ok (scanInstances r q) ∧
      effectiveInstances interval now d (getInstance q interval now d cache).cache =
        some r := by
  unfold effectiveInstances at h
  by_cases hstale : cache.UpdatedAt + interval < now
  · rw [if_pos hstale] at h
    cases d with
    | error e => cases h
    | ok resp =>
      have hr : resp = r := by simpa using h
      subst hr
      have hfresh : ¬ (now + interval < now) := by omega
      constructor
      · simp [getInstance, hstale]
      · simp [getInstance, effectiveInstances, hstale, hfresh]
  · rw [if_neg hstale] at h
    have hr : cache.Instances.getD [] = r := by simpa using h
    constructor
    · simp [getInstance, hstale, hr]
    · simp [getInstance, effectiveInstances, hstale, hr]

/-- `getLoadBalancer` analogue of `getInstance_effective`. -/
theorem getLoadBalancer_effective (q : String) (interval now : Nat)
    (d : Except String (List LoadBalancerDescription)) (cache : LoadBalancerCache)
    (r : List LoadBalancerDescription)
    (h : effectiveLoadBalancers interval now d cache = some r) :
    (getLoadBalancer q interval now d cache).result = .ok (scanLoadBalancers r q) ∧
      effectiveLoadBalancers interval now d
        (getLoadBalancer q interval now d cache).cache = some r := by
  unfold effectiveLoadBalancers at h
  by_cases hstale : cache.UpdatedAt + interval < now
  · rw [if_pos hstale] at h
    cases d with
    | error e => cases h
    | ok resp =>
      have hr : resp = r := by simpa using h
      subst hr
      have hfresh : ¬ (now + interval < now) := by omega
      constructor
      · simp [getLoadBalancer, hstale]
      · simp [getLoadBalancer, effectiveLoadBalancers, hstale, hfresh]
  · rw [if_neg hstale] at h
    have hr : cache.LoadBalancers.getD [] = r := by simpa using h
    constructor
    · simp [getLoadBalancer, hstale, hr]
    · simp [getLoadBalancer, effectiveLoadBalancers, hstale, hr]

/-- One step of `findInstances`' query loop, spelled out. -/
theorem findInstancesLoop_cons (interval now : Nat)
    (d : Except String (List Reservation)) (q : String) (rest : List String)
    (cache : InstanceCache) (found : List (String × Instance)) (nf : List String)
    (k : Nat) :
    findInstancesLoop interval now d (q :: rest) cache found nf k =
      match (getInstance q interval now d cache).result with
      | .error e =>
        ⟨some e, found, nf, (getInstance q interval now d cache).cache,
         k + (if (getInstance q interval now d cache).fetched then 1 else 0)⟩
      | .ok none =>
        findInstancesLoop interval now d rest (getInstance q interval now d cache).cache
          found (nf ++ [q]) (k + (if (getInstance q interval now d cache).fetched then 1 else 0))
      | .ok (some i) =>
        findInstancesLoop interval now d rest (getInstance q interval now d cache).cache
          (mapInsert found (i.InstanceId.getD "") i) nf
          (k + (if (getInstance q interval now d cache).fetched then 1 else 0)) := rfl

/-- One step of `findLoadBalancers`' query loop, spelled out. -/
theorem findLoadBalancersLoop_cons (interval now : Nat)
    (d : Except String (List LoadBalancerDescription)) (q : String)
    (rest : List String) (cache : LoadBalancerCache)
    (found : List (String × LoadBalancerDescription)) (nf : List String) (k : Nat) :
    findLoadBalancersLoop interval now d (q :: rest) cache found nf k =
      match (getLoadBalancer q interval now d cache).result with
      | .error e =>
        ⟨some e, found, nf, (getLoadBalancer q interval now d cache).cache,
         k + (if (getLoadBalancer q interval now d cache).fetched then 1 else 0)⟩
      | .ok none =>
        findLoadBalancersLoop interval now d rest
          (getLoadBalancer q interval now d cache).cache found (nf ++ [q])
          (k + (if (getLoadBalancer q interval now d cache).fetched then 1 else 0))
      | .ok (some lb) =>
        findLoadBalancersLoop interval now d rest
          (getLoadBalancer q interval now d cache).cache
          (mapInsert found (lb.DNSName.getD "") lb) nf
          (k + (if (getLoadBalancer q interval now d cache).fetched then 1 else 0)) := rfl

/-- When the effective snapshot exists, `findInstances`' loop finishes
with no error, the resolved fold of the scans, and the queries that
scanned to nothing appended to the not-found list in order. -/
theorem findInstancesLoop_spec (interval now : Nat)
    (d : Except String (List Reservation)) (r : List Reservation) :
    ∀ (queries : List String) (cache : InstanceCache)
      (found : List (String × Instance)) (nf : List String) (k : Nat),
      effectiveInstances interval now d cache = some r →
      ∃ c k', findInstancesLoop interval now d queries cache found nf k =
        ⟨none,
         keyedFold (scanInstances r) (fun i => i.InstanceId.getD "") queries found,
         nf ++ queries.filter (fun q => (scanInstances r q).isNone), c, k'⟩ := by
  intro queries
  induction queries with
  | nil =>
    intro cache found nf k h
    exact ⟨cache, k, by simp [findInstancesLoop, keyedFold]⟩
  | cons q rest ih =>
    intro cache found nf k h
    obtain ⟨hres, heff⟩ := getInstance_effective q interval now d cache r h
    rw [findInstancesLoop_cons, hres]
    cases hscan : scanInstances r q with
    | none =>
      obtain ⟨c, k', hrec⟩ := ih (getInstance q interval now d cache).cache found
        (nf ++ [q]) (k + (if (getInstance q interval now d cache).fetched then 1 else 0))
        heff
      refine ⟨c, k', ?_⟩
      simpa [keyedFold, hscan, List.filter_cons] using hrec
    | some i =>
      obtain ⟨c, k', hrec⟩ := ih (getInstance q interval now d cache).cache
        (mapInsert found (i.InstanceId.getD "") i) nf
        (k + (if (getInstance q interval now d cache).fetched then 1 else 0)) heff
      refine ⟨c, k', ?_⟩
      simpa [keyedFold, hscan, List.filter_cons] using hrec

/-- `findLoadBalancers` analogue of `findInstancesLoop_spec`. -/
theorem findLoadBalancersLoop_spec (interval now : Nat)
    (d : Except String (List LoadBalancerDescription))
    (r : List LoadBalancerDescription) :
    ∀ (queries : List String) (cache : LoadBalancerCache)
      (found : List (String × LoadBalancerDescription)) (nf : List String) (k : Nat),
      effectiveLoadBalancers interval now d cache = some r →
      ∃ c k', findLoadBalancersLoop interval now d queries cache found nf k =
        ⟨none,
         keyedFold (scanLoadBalancers r) (fun lb => lb.DNSName.getD "") queries found,
         nf ++ queries.filter (fun q => (scanLoadBalancers r q).isNone), c, k'⟩ := by
  intro queries
  induction queries with
  | nil =>
    intro cache found nf k h
    exact ⟨cache, k, by simp [findLoadBalancersLoop, keyedFold]⟩
  | cons q rest ih =>
    intro cache found nf k h
    obtain ⟨hres, heff⟩ := getLoadBalancer_effective q interval now d cache r h
    rw [findLoadBalancersLoop_cons, hres]
    cases hscan : scanLoadBalancers r q with
    | none =>
      obtain ⟨c, k', hrec⟩ := ih (getLoadBalancer q interval now d cache).cache found
        (nf ++ [q]) (k + (if (getLoadBalancer q interval now d cache).fetched then 1 else 0))
        heff
      refine ⟨c, k', ?_⟩
      simpa [keyedFold, hscan, List.filter_cons] using hrec
    | some lb =>
      obtain ⟨c, k', hrec⟩ := ih (getLoadBalancer q interval now d cache).cache
        (mapInsert found (lb.DNSName.getD "") lb) nf
        (k + (if (getLoadBalancer q interval now d cache).fetched then 1 else 0)) heff
      refine ⟨c, k', ?_⟩
      simpa [keyedFold, hscan, List.filter_cons] using hrec

/-- A failing fetch against a refresh-due cache stops the instance loop
at its first query: the error comes back, nothing is recorded, the cache
is untouched, and exactly one fetch was attempted. -/
theorem findInstancesLoop_error (interval now : Nat) (e : String) (q : String)
    (rest : List String) (cache : InstanceCache) (found : List (String × Instance))
    (nf : List String) (k : Nat) (hstale : cache.UpdatedAt + interval < now) :
    findInstancesLoop interval now (.error e) (q :: rest) cache found nf k =
      ⟨some e, found, nf, cache, k + 1⟩ := by
  rw [findInstancesLoop_cons]
  simp [getInstance, hstale]

/-- `findLoadBalancers` analogue of `findInstancesLoop_error`. -/
theorem findLoadBalancersLoop_error (interval now : Nat) (e : String) (q : String)
    (rest : List String) (cache : LoadBalancerCache)
    (found : List (String × LoadBalancerDescription)) (nf : List String) (k : Nat)
    (hstale : cache.UpdatedAt + interval < now) :
    findLoadBalancersLoop interval now (.error e) (q :: rest) cache found nf k =
      ⟨some e, found, nf, cache, k + 1⟩ := by
  rw [findLoadBalancersLoop_cons]
  simp [getLoadBalancer, hstale]

/-- The instance test, as a proposition. -/
theorem matchInstance_iff (query : String) (i : Instance) :
    matchInstance query i = true ↔
      i.PrivateDnsName = some query ∨ i.InstanceId = some query := by
  simp [matchInstance]

/-- The instance test's failure, as a proposition. -/
theorem matchInstance_eq_false_iff (query : String) (i : Instance) :
    matchInstance query i = false ↔
      ¬ (i.PrivateDnsName = some query ∨ i.InstanceId = some query) := by
  simp [matchInstance, not_or]

/-- The load-balancer test, as a proposition. -/
theorem matchLoadBalancer_iff (query : String) (lb : LoadBalancerDescription) :
    matchLoadBalancer query lb = true ↔
      ∃ dd, lb.DNSName = some dd ∧ hasSuffix dd query = true := by
  cases h : lb.DNSName <;> simp [matchLoadBalancer, h]

/-- The load-balancer test's failure, as a proposition. -/
theorem matchLoadBalancer_eq_false_iff (query : String) (lb : LoadBalancerDescription) :
    matchLoadBalancer query lb = false ↔
      ¬ ∃ dd, lb.DNSName = some dd ∧ hasSuffix dd query = true := by
  rw [← Bool.not_eq_true, not_iff_not]
  exact matchLoadBalancer_iff query lb

/-- Claim C1, counterexample at the TTL boundary: with the snapshot
fetched at 5, TTL 5 and now 10 the age is exactly the TTL, so the
claim's partition calls the cache Stale (age ≥ TTL) and requires a
remote fetch — but `getInstance` performs none, because the code's
staleness test `UpdatedAt + TTL < now` is strict. -/
theorem C1_boundary_counterexample :
    specStaleInstance ⟨5, some []⟩ 5 10 = true ∧
      (getInstance "i-abc" 5 10 (.ok []) ⟨5, some []⟩).fetched = false :=
  ⟨rfl, rfl⟩

/-- Claim C1 as amended: a resolve call (`getInstance` or
`getLoadBalancer`) performs a remote listing fetch iff
`fetchedAt + TTL < now` — so Fresh means age ≤ TTL (a cache of age
exactly TTL is Fresh) and Stale means age > TTL, a never-populated
cache carrying the zero timestamp; a Fresh cache is left untouched,
and a successful fetch replaces the snapshot, stamps
`fetchedAt = now`, and leaves a cache that is Fresh at that instant. -/
theorem C1_fetch_iff_stale (query : String) (interval now : Nat)
    (dI : Except String (List Reservation)) (cacheI : InstanceCache)
    (dL : Except String (List LoadBalancerDescription)) (cacheL : LoadBalancerCache) :
    ((getInstance query interval now dI cacheI).fetched = true ↔
        cacheI.UpdatedAt + interval < now)
  ∧ ((getLoadBalancer query interval now dL cacheL).fetched = true ↔
        cacheL.UpdatedAt + interval < now)
  ∧ (¬ cacheI.UpdatedAt + interval < now →
        (getInstance query interval now dI cacheI).cache = cacheI)
  ∧ (¬ cacheL.UpdatedAt + interval < now →
        (getLoadBalancer query interval now dL cacheL).cache = cacheL)
  ∧ (∀ resp, cacheI.UpdatedAt + interval < now → dI = .ok resp →
        (getInstance query interval now dI cacheI).cache = ⟨now, some resp⟩ ∧
          ¬ ((⟨now, some resp⟩ : InstanceCache).UpdatedAt + interval < now))
  ∧ (∀ resp, cacheL.UpdatedAt + interval < now → dL = .ok resp →
        (getLoadBalancer query interval now dL cacheL).cache = ⟨now, some resp, []⟩ ∧
          ¬ ((⟨now, some resp, []⟩ : LoadBalancerCache).UpdatedAt + interval < now)) := by
  refine ⟨?_, ?_, ?_, ?_, ?_, ?_⟩
  · by_cases h : cacheI.UpdatedAt + interval < now
    · cases dI <;> simp [getInstance, h]
    · simp [getInstance, h]
  · by_cases h : cacheL.UpdatedAt + interval < now
    · cases dL <;> simp [getLoadBalancer, h]
    · simp [getLoadBalancer, h]
  · intro h; simp [getInstance, h]
  · intro h; simp [getLoadBalancer, h]
  · intro resp h hok
    subst hok
    refine ⟨by simp [getInstance, h], ?_⟩
    show ¬ (now + interval < now)
    omega
  · intro resp h hok
    subst hok
    refine ⟨by simp [getLoadBalancer, h], ?_⟩
    show ¬ (now + interval < now)
    omega

/-- Claim C2 (confirmed): against any snapshot, the instance scan
returns an instance exactly when the query equals its private DNS name
or its instance ID, the first such instance in scan order winning; the
load-balancer scan returns a balancer exactly when the query is a
suffix of its public DNS name, first match winning; a scan with no
match is `none`, and whenever the resolve call has a snapshot to scan
(cache fresh, or fetch successful) its result is that scan wrapped in
`.ok` — no match means NotFound with no error. -/
theorem C2_match_semantics (query : String) (resvs : List Reservation)
    (lbs : List LoadBalancerDescription) (interval now : Nat)
    (dI : Except String (List Reservation)) (cacheI : InstanceCache)
    (dL : Except String (List LoadBalancerDescription)) (cacheL : LoadBalancerCache) :
    (∀ i, scanInstances resvs query = some i ↔
        ∃ pre post, resvs.flatMap Reservation.Instances = pre ++ i :: post ∧
          (∀ j ∈ pre, ¬ (j.PrivateDnsName = some query ∨ j.InstanceId = some query)) ∧
          (i.PrivateDnsName = some query ∨ i.InstanceId = some query))
  ∧ (scanInstances resvs query = none ↔
        ∀ i ∈ resvs.flatMap Reservation.Instances,
          ¬ (i.PrivateDnsName = some query ∨ i.InstanceId = some query))
  ∧ (∀ lb, scanLoadBalancers lbs query = some lb ↔
        ∃ pre post, lbs = pre ++ lb :: post ∧
          (∀ m ∈ pre, ¬ ∃ dd, m.DNSName = some dd ∧ hasSuffix dd query = true) ∧
          ∃ dd, lb.DNSName = some dd ∧ hasSuffix dd query = true)
  ∧ (scanLoadBalancers lbs query = none ↔
        ∀ lb ∈ lbs, ¬ ∃ dd, lb.DNSName = some dd ∧ hasSuffix dd query = true)
  ∧ (∀ r, effectiveInstances interval now dI cacheI = some r →
        (getInstance query interval now dI cacheI).result = .ok (scanInstances r query))
  ∧ (∀ r, effectiveLoadBalancers interval now dL cacheL = some r →
        (getLoadBalancer query interval now dL cacheL).result =
          .ok (scanLoadBalancers r query)) := by
  refine ⟨?_, ?_, ?_, ?_, ?_, ?_⟩
  · intro i
    unfold scanInstances
    rw [find?_eq_some_split]
    constructor
    · rintro ⟨l1, l2, heq, hpre, hpa⟩
      exact ⟨l1, l2, heq,
        fun j hj => (matchInstance_eq_false_iff query j).mp (hpre j hj),
        (matchInstance_iff query i).mp hpa⟩
    · rintro ⟨l1, l2, heq, hpre, hpa⟩
      exact ⟨l1, l2, heq,
        fun j hj => (matchInstance_eq_false_iff query j).mpr (hpre j hj),
        (matchInstance_iff query i).mpr hpa⟩
  · unfold scanInstances
    rw [List.find?_eq_none]
    constructor
    · intro h i hi hcon
      exact h i hi ((matchInstance_iff query i).mpr hcon)
    · intro h i hi hcon
      exact h i hi ((matchInstance_iff query i).mp hcon)
  · intro lb
    unfold scanLoadBalancers
    rw [find?_eq_some_split]
    constructor
    · rintro ⟨l1, l2, heq, hpre, hpa⟩
      exact ⟨l1, l2, heq,
        fun m hm => (matchLoadBalancer_eq_false_iff query m).mp (hpre m hm),
        (matchLoadBalancer_iff query lb).mp hpa⟩
    · rintro ⟨l1, l2, heq, hpre, hpa⟩
      exact ⟨l1, l2, heq,
        fun m hm => (matchLoadBalancer_eq_false_iff query m).mpr (hpre m hm),
        (matchLoadBalancer_iff query lb).mpr hpa⟩
  · unfold scanLoadBalancers
    rw [List.find?_eq_none]
    constructor
    · intro h lb hlb hcon
      exact h lb hlb ((matchLoadBalancer_iff query lb).mpr hcon)
    · intro h lb hlb hcon
      exact h lb hlb ((matchLoadBalancer_iff query lb).mp hcon)
  · intro r h
    exact (getInstance_effective query interval now dI cacheI r h).1
  · intro r h
    exact (getLoadBalancer_effective query interval now dL cacheL r h).1

/-- Claim C3 (confirmed): when the cache is due for a refresh and the
remote listing fetch fails, the resolve call returns the failure and
leaves the cached snapshot untouched; the enclosing orchestration
(`findInstances`, and likewise `findLoadBalancers`) returns that
failure after exactly one fetch attempt, with no result slice and no
not-found report — the `defer` that would post one is registered only
after the loop, which the error exits first. -/
theorem C3_fetch_failure (ev : Event) (m1 m2 m3 : String → List String)
    (interval now : Nat) (e : String) (query : String)
    (cacheI : InstanceCache) (cacheL : LoadBalancerCache)
    (hI : cacheI.UpdatedAt + interval < now)
    (hL : cacheL.UpdatedAt + interval < now)
    (hqI : findInstanceQueries ev m1 m2 ≠ [])
    (hqL : findLoadBalancerQueries ev m3 ≠ []) :
    getInstance query interval now (.error e) cacheI = ⟨.error e, cacheI, true⟩
  ∧ getLoadBalancer query interval now (.error e) cacheL = ⟨.error e, cacheL, true⟩
  ∧ findInstances ev m1 m2 interval now (.error e) cacheI =
      ⟨.error e, cacheI, 1, none⟩
  ∧ findLoadBalancers ev m3 interval now (.error e) cacheL =
      ⟨.error e, cacheL, 1, none⟩ := by
  refine ⟨by simp [getInstance, hI], by simp [getLoadBalancer, hL], ?_, ?_⟩
  · cases hq : findInstanceQueries ev m1 m2 with
    | nil => exact absurd hq hqI
    | cons q rest =>
      have hloop := findInstancesLoop_error interval now e q rest cacheI [] [] 0 hI
      simp [findInstances, hq, hloop]
  · cases hq : findLoadBalancerQueries ev m3 with
    | nil => exact absurd hq hqL
    | cons q rest =>
      have hloop := findLoadBalancersLoop_error interval now e q rest cacheL [] [] 0 hL
      simp [findLoadBalancers, hq, hloop]

/-- Witness for C3 at a concrete event, stale caches and a failing
fetch: the orchestration returns the failure untouched. -/
theorem C3_fetch_failure_witness :
    findInstances ⟨"i-x", []⟩ (fun s => if s = "i-x" then ["i-x"] else [])
        (fun _ => []) 5 10 (.error "boom") ⟨0, none⟩ =
      ⟨.error "boom", ⟨0, none⟩, 1, none⟩ := by
  have h := C3_fetch_failure ⟨"i-x", []⟩ (fun s => if s = "i-x" then ["i-x"] else [])
    (fun _ => []) (fun _ => ["x.elb"]) 5 10 "boom" "i-x" ⟨0, none⟩ ⟨0, none, []⟩
    (by decide) (by decide) (by decide) (by decide)
  exact h.2.2.1

/-- Claim C5 (confirmed): for every corpus and every pattern, extraction
returns a duplicate-free list, and a corpus in which the pattern matches
nothing extracts the empty list; `findQuery` is a pure function — no
errors, no side effects. -/
theorem C5_extraction_dedup (ev : Event) (m : String → List String) :
    (findQuery ev m).Nodup ∧
      ((∀ s ∈ corpusStrings ev, m s = []) → findQuery ev m = []) := by
  constructor
  · exact foldl_insertQuery_nodup _ [] List.nodup_nil
  · intro h
    unfold findQuery
    have hnil : ∀ l : List String, (∀ s ∈ l, m s = []) → l.flatMap m = [] := by
      intro l
      induction l with
      | nil => intro _; rfl
      | cons a t ih =>
        intro ha
        rw [List.flatMap_cons, ha a (by simp), List.nil_append]
        exact ih (fun s hs => ha s (by simp [hs]))
    rw [hnil _ h]
    rfl

/-- Claim C6 (confirmed): with zero extracted queries for a resource
class, that class's orchestration returns an empty result at once — no
remote fetch, no not-found report, cache untouched. -/
theorem C6_empty_queries (ev : Event) (m1 m2 m3 : String → List String)
    (interval now : Nat) (dI : Except String (List Reservation))
    (dL : Except String (List LoadBalancerDescription))
    (cacheI : InstanceCache) (cacheL : LoadBalancerCache)
    (hI : findInstanceQueries ev m1 m2 = [])
    (hL : findLoadBalancerQueries ev m3 = []) :
    findInstances ev m1 m2 interval now dI cacheI = ⟨.ok [], cacheI, 0, none⟩
  ∧ findLoadBalancers ev m3 interval now dL cacheL = ⟨.ok [], cacheL, 0, none⟩ := by
  constructor
  · simp [findInstances, hI]
  · simp [findLoadBalancers, hL]

/-- Witness for C6 at a concrete identifier-free event. -/
theorem C6_empty_queries_witness :
    findInstances ⟨"hello", []⟩ (fun _ => []) (fun _ => []) 5 10 (.ok []) ⟨0, none⟩ =
        ⟨.ok [], ⟨0, none⟩, 0, none⟩ ∧
      findLoadBalancers ⟨"hello", []⟩ (fun _ => []) 5 10 (.ok []) ⟨0, none, []⟩ =
        ⟨.ok [], ⟨0, none, []⟩, 0, none⟩ :=
  C6_empty_queries ⟨"hello", []⟩ (fun _ => []) (fun _ => []) (fun _ => [])
    5 10 (.ok []) (.ok []) ⟨0, none⟩ ⟨0, none, []⟩ rfl rfl

/-- Claim C7, counterexample: an event whose text holds an instance
identifier, with a refresh-due instance cache and a failing instance
listing fetch.  Instance resolution resolves nothing — it fails with
the error, resolving no resource — yet load-balancer resolution is not
attempted either: the handler returns the error first.  So
"load-balancer resolution is attempted iff instance resolution resolved
nothing" fails in the only-if direction. -/
theorem C7_error_counterexample :
    (findInstances ⟨"i-x", []⟩ (fun s => if s = "i-x" then ["i-x"] else [])
        (fun _ => []) 5 10 (.error "boom") ⟨0, none⟩).result = .error "boom"
  ∧ (handleEvent ⟨"i-x", []⟩ (fun s => if s = "i-x" then ["i-x"] else [])
        (fun _ => []) (fun _ => []) 5 10 (.error "boom") (.ok [])
        ⟨0, none⟩ ⟨0, none, []⟩).lbAttempted = false :=
  ⟨rfl, rfl⟩

/-- Claim C7 as amended: instance resolution runs first, and the handler
attempts load-balancer resolution exactly when instance resolution
completes successfully with zero resolved instances; any resolved
instance — and also any instance-resolution failure — means
load-balancer resolution is never invoked for the event. -/
theorem C7_ordering (ev : Event) (m1 m2 m3 : String → List String)
    (interval now : Nat) (dI : Except String (List Reservation))
    (dL : Except String (List LoadBalancerDescription))
    (cacheI : InstanceCache) (cacheL : LoadBalancerCache) :
    (handleEvent ev m1 m2 m3 interval now dI dL cacheI cacheL).lbAttempted = true ↔
      (findInstances ev m1 m2 interval now dI cacheI).result = .ok [] := by
  simp only [handleEvent]
  cases h : (findInstances ev m1 m2 interval now dI cacheI).result with
  | error e => simp [h]
  | ok l =>
    cases l with
    | nil =>
      simp only [h]
      cases hfl : (findLoadBalancers ev m3 interval now dL cacheL).result with
      | error e => simp [hfl]
      | ok lbs => cases lbs <;> simp [hfl]
    | cons i t => simp [h]

/-- Claim C4 (confirmed): whenever the orchestration succeeds against a
snapshot, its resolved result carries pairwise-distinct canonical keys
(instance ID for instances, DNS name for load balancers), and the
canonical key of every resource an extracted query scans to is present
— so two distinct queries resolving to the same underlying resource
give exactly one entry for it. -/
theorem C4_dedup_resolved (ev : Event) (m1 m2 m3 : String → List String)
    (interval now : Nat) (dI : Except String (List Reservation))
    (dL : Except String (List LoadBalancerDescription))
    (cacheI : InstanceCache) (cacheL : LoadBalancerCache)
    (r : List Reservation) (rl : List LoadBalancerDescription)
    (l : List Instance) (ll : List LoadBalancerDescription)
    (heffI : effectiveInstances interval now dI cacheI = some r)
    (heffL : effectiveLoadBalancers interval now dL cacheL = some rl)
    (hI : (findInstances ev m1 m2 interval now dI cacheI).result = .ok l)
    (hL : (findLoadBalancers ev m3 interval now dL cacheL).result = .ok ll) :
    (l.map (fun i => i.InstanceId.getD "")).Nodup
  ∧ (∀ q ∈ findInstanceQueries ev m1 m2, ∀ i, scanInstances r q = some i →
        i.InstanceId.getD "" ∈ l.map (fun j => j.InstanceId.getD ""))
  ∧ (ll.map (fun lb => lb.DNSName.getD "")).Nodup
  ∧ (∀ q ∈ findLoadBalancerQueries ev m3, ∀ lb, scanLoadBalancers rl q = some lb →
        lb.DNSName.getD "" ∈ ll.map (fun mlb => mlb.DNSName.getD "")) := by
  have hIl : l = (keyedFold (scanInstances r) (fun i => i.InstanceId.getD "")
      (findInstanceQueries ev m1 m2) []).map Prod.snd := by
    cases hq : findInstanceQueries ev m1 m2 with
    | nil =>
      simp only [findInstances, hq] at hI
      simp at hI
      simp [keyedFold, hI]
    | cons q rest =>
      obtain ⟨c, k', hloop⟩ := findInstancesLoop_spec interval now dI r
        (q :: rest) cacheI [] [] 0 heffI
      simp only [findInstances, hq] at hI
      simp [hloop] at hI
      simp [hI]
  have hLl : ll = (keyedFold (scanLoadBalancers rl) (fun lb => lb.DNSName.getD "")
      (findLoadBalancerQueries ev m3) []).map Prod.snd := by
    cases hq : findLoadBalancerQueries ev m3 with
    | nil =>
      simp only [findLoadBalancers, hq] at hL
      simp at hL
      simp [keyedFold, hL]
    | cons q rest =>
      obtain ⟨c, k', hloop⟩ := findLoadBalancersLoop_spec interval now dL rl
        (q :: rest) cacheL [] [] 0 heffL
      simp only [findLoadBalancers, hq] at hL
      simp [hloop] at hL
      simp [hL]
  have hpairsI : ∀ p ∈ keyedFold (scanInstances r) (fun i => i.InstanceId.getD "")
      (findInstanceQueries ev m1 m2) [], p.1 = p.2.InstanceId.getD "" :=
    keyedFold_pairs _ _ _ [] (by intro p hp; cases hp)
  have hpairsL : ∀ p ∈ keyedFold (scanLoadBalancers rl) (fun lb => lb.DNSName.getD "")
      (findLoadBalancerQueries ev m3) [], p.1 = p.2.DNSName.getD "" :=
    keyedFold_pairs _ _ _ [] (by intro p hp; cases hp)
  have hmapI : l.map (fun i => i.InstanceId.getD "") =
      mapKeys (keyedFold (scanInstances r) (fun i => i.InstanceId.getD "")
        (findInstanceQueries ev m1 m2) []) := by
    rw [hIl, List.map_map]
    exact List.map_congr_left (fun p hp => (hpairsI p hp).symm)
  have hmapL : ll.map (fun lb => lb.DNSName.getD "") =
      mapKeys (keyedFold (scanLoadBalancers rl) (fun lb => lb.DNSName.getD "")
        (findLoadBalancerQueries ev m3) []) := by
    rw [hLl, List.map_map]
    exact List.map_congr_left (fun p hp => (hpairsL p hp).symm)
  refine ⟨?_, ?_, ?_, ?_⟩
  · rw [hmapI]
    exact keyedFold_keys_nodup _ _ _ [] (by simp [mapKeys])
  · intro q hq i hscan
    rw [hmapI]
    exact keyedFold_mem_key _ _ _ q i hq hscan []
  · rw [hmapL]
    exact keyedFold_keys_nodup _ _ _ [] (by simp [mapKeys])
  · intro q hq lb hscan
    rw [hmapL]
    exact keyedFold_mem_key _ _ _ q lb hq hscan []

/-- Witness for C4: one instance carrying both identifiers, both
extracted as queries; the result holds exactly one entry for it. -/
theorem C4_dedup_resolved_witness :
    (([(⟨some "ip-a", some "i-a"⟩ : Instance)]).map
        (fun i => i.InstanceId.getD "")).Nodup
  ∧ (∀ q ∈ findInstanceQueries ⟨"x", []⟩ (fun _ => ["i-a"]) (fun _ => ["ip-a"]),
        ∀ i, scanInstances [⟨[⟨some "ip-a", some "i-a"⟩]⟩] q = some i →
          i.InstanceId.getD "" ∈
            ([(⟨some "ip-a", some "i-a"⟩ : Instance)]).map
              (fun j => j.InstanceId.getD ""))
  ∧ (([] : List LoadBalancerDescription).map (fun lb => lb.DNSName.getD "")).Nodup
  ∧ (∀ q ∈ findLoadBalancerQueries ⟨"x", []⟩ (fun _ => []),
        ∀ lb, scanLoadBalancers [] q = some lb →
          lb.DNSName.getD "" ∈
            ([] : List LoadBalancerDescription).map
              (fun mlb => mlb.DNSName.getD "")) :=
  C4_dedup_resolved ⟨"x", []⟩ (fun _ => ["i-a"]) (fun _ => ["ip-a"]) (fun _ => [])
    5 10 (.ok [⟨[⟨some "ip-a", some "i-a"⟩]⟩]) (.ok []) ⟨0, none⟩ ⟨0, none, []⟩
    [⟨[⟨some "ip-a", some "i-a"⟩]⟩] [] [⟨some "ip-a", some "i-a"⟩] []
    rfl rfl rfl rfl

/-- Claim C8, counterexample: a successful load-balancer snapshot
refresh rebuilds the whole cache with an empty tag map
(`Tags: make(...)`), dropping an entry the tag cache held — so the tag
cache does not grow monotonically for the life of the process, and a
cached name's entry can be removed. -/
theorem C8_refresh_clears_counterexample :
    mapLookup (⟨0, some [], [("lb1", [⟨"k", "v"⟩])]⟩ : LoadBalancerCache).Tags "lb1" =
        some [⟨"k", "v"⟩]
  ∧ (getLoadBalancer "q" 5 10 (.ok [])
        ⟨0, some [], [("lb1", [⟨"k", "v"⟩])]⟩).cache.Tags = [] :=
  ⟨rfl, rfl⟩

/-- Claim C8 as amended: across `getLoadBalancerTags` operations the tag
cache only grows — every present key stays present, and a failed
describe-tags fetch changes nothing — but a successful snapshot refresh
in `getLoadBalancer` resets the tag cache to empty, so entries survive
only between refreshes, not for the life of the process. -/
theorem C8_tag_cache_growth (name k e : String)
    (d : Except String (List TagDescription)) (cache : LoadBalancerCache) :
    ((mapLookup cache.Tags k).isSome →
        (mapLookup (getLoadBalancerTags name d cache).cache.Tags k).isSome)
  ∧ (d = .error e → mapLookup cache.Tags name = none →
        (getLoadBalancerTags name d cache).cache = cache)
  ∧ (∀ interval now resp query, cache.UpdatedAt + interval < now →
        (getLoadBalancer query interval now (.ok resp) cache).cache.Tags = []) := by
  refine ⟨?_, ?_, ?_⟩
  · intro h
    cases hlk : mapLookup cache.Tags name with
    | some t => simpa [getLoadBalancerTags, hlk] using h
    | none =>
      cases d with
      | error e2 => simpa [getLoadBalancerTags, hlk] using h
      | ok resp =>
        simp only [getLoadBalancerTags, hlk]
        exact tagsFold_fst_isSome name resp (cache.Tags, []) k h
  · intro hd hm
    subst hd
    simp [getLoadBalancerTags, hm]
  · intro interval now resp query h
    simp [getLoadBalancer, h]

/-- Claim C9, counterexample: the corpus body holds a private DNS name
before an instance ID, and neither resolves.  Extraction appends
host-ID-pattern matches before DNS-name-pattern matches
(`findInstanceQueries`), so the not-found list reports the instance ID
first — not the corpus first-seen order, which has the DNS name first.
The matchers stand for the two patterns' `FindAllString` on this body,
and the combined scan for a positional scan of the body. -/
theorem C9_order_counterexample :
    (findInstances ⟨"ip-a i-b", []⟩
        (fun s => if s = "ip-a i-b" then ["i-b"] else [])
        (fun s => if s = "ip-a i-b" then ["ip-a"] else [])
        5 10 (.ok []) ⟨0, none⟩).notFoundPost = some ["i-b", "ip-a"]
  ∧ corpusFirstSeenQueries ⟨"ip-a i-b", []⟩
        (fun s => if s = "ip-a i-b" then ["ip-a", "i-b"] else []) =
      ["ip-a", "i-b"]
  ∧ (["i-b", "ip-a"] : List String) ≠ ["ip-a", "i-b"] :=
  ⟨rfl, rfl, by decide⟩

/-- Claim C9 as amended: whenever a snapshot is available to scan, the
not-found report contains exactly the extracted queries that resolved
to no resource, in extraction order — all host-ID-pattern queries
before all private-DNS-name-pattern queries, each pattern's matches in
the model's first-insertion order (Go iterates the dedup map in
unspecified order) — which need not be corpus first-seen order; no
report when every query resolved. -/
theorem C9_notfound_order (ev : Event) (m1 m2 : String → List String)
    (interval now : Nat) (d : Except String (List Reservation))
    (cache : InstanceCache) (r : List Reservation)
    (heff : effectiveInstances interval now d cache = some r) :
    (findInstances ev m1 m2 interval now d cache).notFoundPost =
      (if ((findInstanceQueries ev m1 m2).filter
            (fun q => (scanInstances r q).isNone)).isEmpty then none
       else some ((findInstanceQueries ev m1 m2).filter
            (fun q => (scanInstances r q).isNone))) := by
  cases hq : findInstanceQueries ev m1 m2 with
  | nil => simp [findInstances, hq]
  | cons q rest =>
    obtain ⟨c, k', hloop⟩ := findInstancesLoop_spec interval now d r (q :: rest)
      cache [] [] 0 heff
    simp [findInstances, hq, hloop]

/-- Witness for C9's amended claim: one unresolved query is reported. -/
theorem C9_notfound_order_witness :
    (findInstances ⟨"i-zz", []⟩ (fun s => if s = "i-zz" then ["i-zz"] else [])
        (fun _ => []) 5 10 (.ok []) ⟨0, none⟩).notFoundPost = some ["i-zz"] := by
  have h := C9_notfound_order ⟨"i-zz", []⟩
    (fun s => if s = "i-zz" then ["i-zz"] else []) (fun _ => [])
    5 10 (.ok []) ⟨0, none⟩ [] rfl
  rw [h]
  rfl

/-- Claim C10 (confirmed): on a tag-cache miss whose describe-tags fetch
succeeds but whose response carries no entry for the requested name,
`getLoadBalancerTags` returns the empty tag list with no error — the
missing name is not a failure — while every response entry is inserted
into the tag cache under its own name. -/
theorem C10_absent_name (name : String) (resp : List TagDescription)
    (cache : LoadBalancerCache)
    (hmiss : mapLookup cache.Tags name = none)
    (habsent : ∀ d ∈ resp, d.LoadBalancerName ≠ name)
    (hnodup : (resp.map TagDescription.LoadBalancerName).Nodup) :
    (getLoadBalancerTags name (.ok resp) cache).result = .ok []
  ∧ (getLoadBalancerTags name (.ok resp) cache).fetched = true
  ∧ ∀ d ∈ resp,
      mapLookup (getLoadBalancerTags name (.ok resp) cache).cache.Tags
          d.LoadBalancerName = some d.Tags := by
  have hsnd := tagsFold_snd_absent name resp (cache.Tags, []) habsent
  refine ⟨?_, ?_, ?_⟩
  · simp [getLoadBalancerTags, hmiss, hsnd]
  · simp [getLoadBalancerTags, hmiss]
  · intro d hd
    simp only [getLoadBalancerTags, hmiss]
    exact tagsFold_lookup_of_mem name resp (cache.Tags, []) hnodup d hd

/-- Witness for C10: the response names a sibling balancer only; the
requested name gets the empty tag list, the sibling is cached. -/
theorem C10_absent_name_witness :
    (getLoadBalancerTags "a" (.ok [⟨"b", [⟨"k", "v"⟩]⟩]) ⟨0, some [], []⟩).result =
        .ok []
  ∧ mapLookup (getLoadBalancerTags "a" (.ok [⟨"b", [⟨"k", "v"⟩]⟩])
        ⟨0, some [], []⟩).cache.Tags "b" = some [⟨"k", "v"⟩] := by
  have h := C10_absent_name "a" [⟨"b", [⟨"k", "v"⟩]⟩] ⟨0, some [], []⟩ rfl
    (by decide) (by decide)
  exact ⟨h.1, h.2.2 ⟨"b", [⟨"k", "v"⟩]⟩ (by decide)⟩

end EC2Bot
